import Mathlib

/-!
Verification of the crystal-structure generation and storage scripts
(`fccnanotwinned_structure.py`, `fccstructure_construction.py`,
`phase_composition_visualization.py`, `phase_composition_enhanced_visualization.py`).

The Python scripts are embedded shallowly:

* fractional coordinates and percentages become `ℚ` (Python `%` on floats is
  mathematical mod, embedded as `q - ⌊q⌋`);
* a pymatgen `Structure` becomes a lattice (three row vectors) plus a list of
  sites, each a species label and a fractional-coordinate triple;
* the SQLite `structures` table becomes a list of records; statements become
  pure functions on it, raised Python exceptions become `Except.error`;
* `random.sample` outcomes are quantified over: any duplicate-free list of
  Ni-site indices of the demanded size;
* Python decimal rendering of the loop counter (`f"..._{counter}..."`) is
  embedded as an executable base-10 printer.
-/

namespace HEA

/-! ### Decimal rendering of naturals (Python f-string `{counter}`) -/

def digitChar : ℕ → Char
  | 0 => '0' | 1 => '1' | 2 => '2' | 3 => '3' | 4 => '4'
  | 5 => '5' | 6 => '6' | 7 => '7' | 8 => '8' | _ => '9'

def natDecimalAux : ℕ → ℕ → List Char
  | 0, _ => []
  | fuel+1, n =>
    if n < 10 then [digitChar n]
    else natDecimalAux fuel (n / 10) ++ [digitChar (n % 10)]

/-- Decimal digit string of a natural number, most significant digit first. -/
def natDecimal (n : ℕ) : List Char := natDecimalAux (n + 1) n

def natToString (n : ℕ) : String := String.mk (natDecimal n)

/-! ### `str.lower` and `os.path.splitext` (ASCII fragment used by the scripts) -/

def charLower (c : Char) : Char :=
  if 'A' ≤ c ∧ c ≤ 'Z' then Char.ofNat (c.toNat + 32) else c

def strLower (s : String) : String := String.mk (s.data.map charLower)

/-- Index of the last dot of the character list, if any. -/
def lastDotIdx (cs : List Char) : Option ℕ :=
  (List.range cs.length).foldl
    (fun acc i => if cs.getD i ' ' = '.' then some i else acc) none

/-- Base of `os.path.splitext(filename)` for a plain filename (no directory
separators): cut at the last dot unless every character before it is a dot. -/
def splitextBase (s : String) : String :=
  match lastDotIdx s.data with
  | none => s
  | some d =>
    if (s.data.take d).all (fun c => c = '.') then s
    else String.mk (s.data.take d)

/-! ### The `structures` table and its operations -/

structure DBRecord where
  id : String
  filename : String
  format : String
  data : Option (List ℕ)
deriving DecidableEq

structure DB where
  rows : List DBRecord
deriving DecidableEq

def filenames (db : DB) : List String := db.rows.map DBRecord.filename

/-- Python truthiness test `not data or len(data) == 0` for an optional blob. -/
def isEmptyData : Option (List ℕ) → Bool
  | none => true
  | some l => l.isEmpty

def dataLen : Option (List ℕ) → ℕ
  | none => 0
  | some l => l.length

/-- `save_to_db`: reject an empty payload, then `INSERT`; a duplicate filename
violates the `UNIQUE` constraint and surfaces as `sqlite3.IntegrityError`. -/
def save_to_db (db : DB) (file_id filename format : String) (data : Option (List ℕ)) :
    Except String DB :=
  if isEmptyData data then
    Except.error ("Cannot save empty data for " ++ filename)
  else if db.rows.any (fun r => r.filename == filename) then
    Except.error "IntegrityError: UNIQUE constraint failed: structures.filename"
  else
    Except.ok ⟨db.rows ++ [⟨file_id, filename, format, data⟩]⟩

/-- `clear_database`: `DELETE FROM structures`. -/
def clear_database (_db : DB) : DB := ⟨[]⟩

/-- `clean_database`: `DELETE FROM structures WHERE data IS NULL OR length(data) = 0`. -/
def clean_database (db : DB) : DB :=
  ⟨db.rows.filter (fun r => !(r.data.isNone || dataLen r.data == 0))⟩

/-- The candidate filename probed at iteration `k` of `get_unique_filename`:
`base.ext` first, then `base_1.ext`, `base_2.ext`, sequentially. -/
def candidateName (base ext : String) : ℕ → String
  | 0 => base ++ "." ++ ext
  | k+1 => base ++ "_" ++ natToString (k + 1) ++ "." ++ ext

def gufAux (table : List String) (base ext : String) : ℕ → ℕ → Option String
  | 0, _ => none
  | fuel+1, k =>
    if candidateName base ext k ∈ table then gufAux table base ext fuel (k + 1)
    else some (candidateName base ext k)

/-- `get_unique_filename` over the list of filenames stored in the table.
The Python `while True` loop is given `table.length + 1` probes of fuel,
enough to reach a fresh name (proved below). -/
def get_unique_filename (table : List String) (filename format : String) : Option String :=
  gufAux table (splitextBase filename) (strLower format) (table.length + 1) 0

/-! ### Crystal structures -/

inductive Axis where
  | x : Axis
  | y : Axis
  | z : Axis
deriving DecidableEq

structure Vec3 where
  cx : ℚ
  cy : ℚ
  cz : ℚ
deriving DecidableEq

def axGet : Axis → Vec3 → ℚ
  | Axis.x, v => v.cx
  | Axis.y, v => v.cy
  | Axis.z, v => v.cz

def axSet : Axis → ℚ → Vec3 → Vec3
  | Axis.x, q, v => { v with cx := q }
  | Axis.y, q, v => { v with cy := q }
  | Axis.z, q, v => { v with cz := q }

structure Site where
  species : String
  frac : Vec3
deriving DecidableEq

/-- Python `t % 1.0`: mathematical mod into `[0, 1)`. -/
def mod1 (q : ℚ) : ℚ := q - Int.floor q

/-- Step 7: `frac_coords[:, axis_idx] = (-frac_coords[:, axis_idx]) % 1.0`. -/
def mirrorSite (ax : Axis) (s : Site) : Site :=
  { species := s.species, frac := axSet ax (mod1 (-(axGet ax s.frac))) s.frac }

structure Lat where
  rowx : Vec3
  rowy : Vec3
  rowz : Vec3
deriving DecidableEq

def latRow : Axis → Lat → Vec3
  | Axis.x, L => L.rowx
  | Axis.y, L => L.rowy
  | Axis.z, L => L.rowz

def latSetRow : Axis → Vec3 → Lat → Lat
  | Axis.x, v, L => { L with rowx := v }
  | Axis.y, v, L => { L with rowy := v }
  | Axis.z, v, L => { L with rowz := v }

def vscale (k : ℚ) (v : Vec3) : Vec3 := ⟨k * v.cx, k * v.cy, k * v.cz⟩

structure Cryst where
  lat : Lat
  sites : List Site
deriving DecidableEq

/-- Step 7: `Structure(al_mirror.lattice, al_mirror.species, frac_coords)` with
the selected axis column mirrored and wrapped. -/
def mirrorStructure (ax : Axis) (c : Cryst) : Cryst :=
  { lat := c.lat, sites := c.sites.map (mirrorSite ax) }

/-- Step 8: `mirrored_frac[:, axis_idx] = (mirrored_frac[:, axis_idx] + 0.5) % 1.0`. -/
def shiftHalfSite (ax : Axis) (s : Site) : Site :=
  { species := s.species, frac := axSet ax (mod1 (axGet ax s.frac + 1 / 2)) s.frac }

/-- Step 8: `cell_mat[axis_idx, :] *= 2`. -/
def doubleRow (ax : Axis) (L : Lat) : Lat := latSetRow ax (vscale 2 (latRow ax L)) L

/-- Step 8: doubled lattice, `np.vstack([base_frac, mirrored_frac])` and
`al_super.species + al_mirror.species`. -/
def mergeStructures (ax : Axis) (base mirrored : Cryst) : Cryst :=
  { lat := doubleRow ax base.lat,
    sites := base.sites ++ mirrored.sites.map (shiftHalfSite ax) }

/-! ### Substitution steps 3 to 6 -/

def setSp (e : String) (s : Site) : Site := { species := e, frac := s.frac }

def modifyAt (f : Site → Site) : ℕ → List Site → List Site
  | _, [] => []
  | 0, s :: t => f s :: t
  | n+1, s :: t => s :: modifyAt f n t

/-- `for idx in sub_indices: structure[idx] = elem`. -/
def applySubs (e : String) (sites : List Site) (idxs : List ℕ) : List Site :=
  idxs.foldl (fun acc i => modifyAt (setSp e) i acc) sites

/-- `[i for i, s in enumerate(structure.species) if s.symbol == "Ni"]`. -/
def niIndices (sites : List Site) : List ℕ :=
  (sites.enum.filter (fun p => p.snd.species == "Ni")).map Prod.fst

def countSp (e : String) (sites : List Site) : ℕ :=
  sites.countP (fun s => s.species == e)

/-- `int(num_atoms * pct / 100)` (equal to the floor clamped at zero). -/
def numSub (numAtoms : ℕ) (pct : ℚ) : ℕ :=
  (Int.floor ((numAtoms : ℚ) * pct / 100)).toNat

/-- One substitution step: raise `ValueError` when fewer Ni sites remain than
demanded, otherwise relabel the sampled indices. -/
def substStep (e : String) (k : ℕ) (idxs : List ℕ) (sites : List Site) :
    Except String (List Site) :=
  if (niIndices sites).length < k then
    Except.error ("Insufficient Ni atoms for " ++ e ++ " substitution")
  else Except.ok (applySubs e sites idxs)

/-- Steps 3 to 6: Fe, Cr, Co with `num_sub`, then Al with `num_al_sub`, where
both counts are taken from the atom count of the starting supercell. -/
def substitutionSteps (m n : ℚ) (sites : List Site) (sFe sCr sCo sAl : List ℕ) :
    Except String (List Site) :=
  (substStep "Fe" (numSub sites.length m) sFe sites).bind fun t1 =>
  (substStep "Cr" (numSub sites.length m) sCr t1).bind fun t2 =>
  (substStep "Co" (numSub sites.length m) sCo t2).bind fun t3 =>
  substStep "Al" (numSub sites.length n) sAl t3

/-- A possible outcome of `random.sample(ni_indices, k)`: the drawn indices are
pairwise distinct and each addresses a Ni site. -/
def ValidSample (sites : List Site) (idxs : List ℕ) : Prop :=
  idxs.Nodup ∧ ∀ i ∈ idxs, sites[i]?.map Site.species = some "Ni"

instance (sites : List Site) (idxs : List ℕ) : Decidable (ValidSample sites idxs) := by
  unfold ValidSample
  infer_instance

/-! ### Ternary-plot coordinates -/

structure CompRow where
  xAl : ℚ
  xNi : ℚ
  xCr : ℚ
  xCo : ℚ
  xFe : ℚ
deriving DecidableEq

/-- `normalize_ternary` of the enhanced script: three-way division by the total
of the five element fractions. -/
def normalize_ternary (r : CompRow) : ℚ × ℚ × ℚ :=
  (r.xAl / (r.xAl + r.xCo + r.xCr + r.xFe + r.xNi),
   (r.xCo + r.xCr) / (r.xAl + r.xCo + r.xCr + r.xFe + r.xNi),
   (r.xFe + r.xNi) / (r.xAl + r.xCo + r.xCr + r.xFe + r.xNi))

/-- The coordinates computed by `main` of `phase_composition_visualization.py`:
`df['p_Al'] = df['xAl']`, `df['p_CoCr'] = df['xCo'] + df['xCr']`,
`df['p_FeNi'] = df['xFe'] + df['xNi']` — no division. -/
def ternary_coords_raw (r : CompRow) : ℚ × ℚ × ℚ :=
  (r.xAl, r.xCo + r.xCr, r.xFe + r.xNi)

/-! ### Coordinate-component lemmas -/

theorem axGet_axSet_same (ax : Axis) (q : ℚ) (v : Vec3) : axGet ax (axSet ax q v) = q := by
  cases ax <;> rfl

theorem axGet_axSet_other (ax ax' : Axis) (h : ax' ≠ ax) (q : ℚ) (v : Vec3) :
    axGet ax' (axSet ax q v) = axGet ax' v := by
  cases ax <;> cases ax' <;> first | rfl | exact absurd rfl h

theorem axSet_axSet (ax : Axis) (p q : ℚ) (v : Vec3) :
    axSet ax p (axSet ax q v) = axSet ax p v := by
  cases ax <;> rfl

theorem axSet_axGet (ax : Axis) (v : Vec3) : axSet ax (axGet ax v) v = v := by
  cases ax <;> rfl

theorem latRow_latSetRow_same (ax : Axis) (v : Vec3) (L : Lat) :
    latRow ax (latSetRow ax v L) = v := by
  cases ax <;> rfl

theorem latRow_latSetRow_other (ax ax' : Axis) (h : ax' ≠ ax) (v : Vec3) (L : Lat) :
    latRow ax' (latSetRow ax v L) = latRow ax' L := by
  cases ax <;> cases ax' <;> first | rfl | exact absurd rfl h

theorem mod1_neg_neg (x : ℚ) (h0 : 0 ≤ x) (h1 : x < 1) : mod1 (-(mod1 (-x))) = x := by
  unfold mod1
  have hx : Int.floor x = 0 := Int.floor_eq_zero_iff.mpr ⟨h0, h1⟩
  have hrw : -(-x - (Int.floor (-x) : ℚ)) = x + ((Int.floor (-x) : ℤ) : ℚ) := by ring
  rw [hrw, Int.floor_add_int, hx]
  push_cast
  ring

theorem mirrorSite_mirrorSite (ax : Axis) (s : Site)
    (h0 : 0 ≤ axGet ax s.frac) (h1 : axGet ax s.frac < 1) :
    mirrorSite ax (mirrorSite ax s) = s := by
  cases s with
  | mk sp f =>
    simp only [mirrorSite, axGet_axSet_same, axSet_axSet]
    rw [mod1_neg_neg _ h0 h1, axSet_axGet]

/-- C3: the mirror step sends the fractional coordinate along the selected axis
of every atom to `(-x) mod 1` while the other two fractional coordinates, the
species at every site, the lattice and the number of atoms are unchanged. -/
theorem c3_mirror_step (ax ax' : Axis) (c : Cryst) (i : ℕ) (hax : ax' ≠ ax) :
    (mirrorStructure ax c).lat = c.lat ∧
    (mirrorStructure ax c).sites.length = c.sites.length ∧
    ((mirrorStructure ax c).sites[i]?.map Site.species) = (c.sites[i]?.map Site.species) ∧
    ((mirrorStructure ax c).sites[i]?.map (fun s => axGet ax s.frac)) =
      (c.sites[i]?.map (fun s => mod1 (-(axGet ax s.frac)))) ∧
    ((mirrorStructure ax c).sites[i]?.map (fun s => axGet ax' s.frac)) =
      (c.sites[i]?.map (fun s => axGet ax' s.frac)) := by
  refine ⟨rfl, by simp [mirrorStructure], ?_, ?_, ?_⟩ <;>
    cases h : c.sites[i]? <;>
      simp [mirrorStructure, List.getElem?_map, h, mirrorSite,
        axGet_axSet_same, axGet_axSet_other _ _ hax]

/-- A concrete lattice and two concrete one-atom structures, used as inputs of
witnesses only; they embed no source code. -/
def exLat : Lat := ⟨⟨1,0,0⟩, ⟨0,1,0⟩, ⟨0,0,1⟩⟩

def exBase : Cryst := ⟨exLat, [⟨"Ni", ⟨0,0,0⟩⟩]⟩

def exMirror : Cryst := ⟨exLat, [⟨"Fe", ⟨0,0,0⟩⟩]⟩

theorem c3_mirror_step_witness :
    (Axis.x ≠ Axis.y) ∧
    ((mirrorStructure Axis.y exBase).sites[0]?.map (fun s => axGet Axis.y s.frac)) =
      (exBase.sites[0]?.map (fun s => mod1 (-(axGet Axis.y s.frac)))) :=
  ⟨by decide, (c3_mirror_step Axis.y Axis.x exBase 0 (by decide)).2.2.2.1⟩

/-- C9: the mirror map is an involution on structures whose fractional
coordinate along the mirror axis lies in `[0, 1)`: mirroring twice restores the
structure exactly. -/
theorem c9_mirror_involution (ax : Axis) (c : Cryst)
    (h : ∀ s ∈ c.sites, 0 ≤ axGet ax s.frac ∧ axGet ax s.frac < 1) :
    mirrorStructure ax (mirrorStructure ax c) = c := by
  cases c with
  | mk L sites =>
    simp only [mirrorStructure, List.map_map]
    refine congrArg (Cryst.mk L) ?_
    induction sites with
    | nil => rfl
    | cons s t ih =>
      have hs := h s (List.mem_cons_self s t)
      have ht : ∀ s ∈ t, 0 ≤ axGet ax s.frac ∧ axGet ax s.frac < 1 :=
        fun x hx => h x (List.mem_cons_of_mem s hx)
      simp only [List.map_cons, Function.comp_apply]
      rw [mirrorSite_mirrorSite ax s hs.1 hs.2]
      exact congrArg (s :: ·) (ih ht)

theorem c9_mirror_involution_witness :
    mirrorStructure Axis.y (mirrorStructure Axis.y exBase) = exBase :=
  c9_mirror_involution Axis.y exBase (by decide)

/-- C4: the merged structure lists the base atoms first, then the mirrored
atoms with the mirror-axis fractional coordinate shifted by one half modulo
one; its lattice doubles the mirror-axis row of the base lattice and keeps the
other rows; its atom count is twice the base count. -/
theorem c4_merge_step (ax ax' : Axis) (base mirrored : Cryst) (i : ℕ)
    (hax : ax' ≠ ax) (hlen : mirrored.sites.length = base.sites.length) :
    (mergeStructures ax base mirrored).sites.length = 2 * base.sites.length ∧
    (i < base.sites.length →
      (mergeStructures ax base mirrored).sites[i]? = base.sites[i]?) ∧
    ((mergeStructures ax base mirrored).sites[base.sites.length + i]?.map Site.species =
      mirrored.sites[i]?.map Site.species) ∧
    ((mergeStructures ax base mirrored).sites[base.sites.length + i]?.map
        (fun s => axGet ax s.frac) =
      mirrored.sites[i]?.map (fun s => mod1 (axGet ax s.frac + 1 / 2))) ∧
    ((mergeStructures ax base mirrored).sites[base.sites.length + i]?.map
        (fun s => axGet ax' s.frac) =
      mirrored.sites[i]?.map (fun s => axGet ax' s.frac)) ∧
    latRow ax (mergeStructures ax base mirrored).lat = vscale 2 (latRow ax base.lat) ∧
    latRow ax' (mergeStructures ax base mirrored).lat = latRow ax' base.lat := by
  have happ : ∀ n : ℕ, (mergeStructures ax base mirrored).sites[base.sites.length + n]? =
      (mirrored.sites.map (shiftHalfSite ax))[n]? := by
    intro n
    simp [mergeStructures, List.getElem?_append]
  refine ⟨?_, ?_, ?_, ?_, ?_, ?_, ?_⟩
  · simp [mergeStructures, hlen]; ring
  · intro hi
    simp [mergeStructures, List.getElem?_append, hi]
  · rw [happ]
    cases h : mirrored.sites[i]? <;> simp [List.getElem?_map, h, shiftHalfSite]
  · rw [happ]
    cases h : mirrored.sites[i]? <;>
      simp [List.getElem?_map, h, shiftHalfSite, axGet_axSet_same]
  · rw [happ]
    cases h : mirrored.sites[i]? <;>
      simp [List.getElem?_map, h, shiftHalfSite, axGet_axSet_other _ _ hax]
  · simp [mergeStructures, doubleRow, latRow_latSetRow_same]
  · simp [mergeStructures, doubleRow, latRow_latSetRow_other _ _ hax]

theorem c4_merge_step_witness :
    (Axis.x ≠ Axis.y) ∧ (exMirror.sites.length = exBase.sites.length) ∧
    (mergeStructures Axis.y exBase exMirror).sites.length = 2 * exBase.sites.length :=
  ⟨by decide, by decide,
    (c4_merge_step Axis.y Axis.x exBase exMirror 0 (by decide) (by decide)).1⟩

/-! ### Database claims -/

/-- C5: an empty payload (`None` or zero length) makes `save_to_db` raise
`ValueError` before any statement executes, so the table is unchanged on that
path; consequently a record inserted by a successful `save_to_db` carries a
payload that is neither NULL nor of zero length. -/
theorem c5_save_rejects_empty (db : DB) (file_id fn fmt : String) (d : Option (List ℕ))
    (db' : DB) (r : DBRecord) :
    ((d = none ∨ dataLen d = 0) →
      save_to_db db file_id fn fmt d = Except.error ("Cannot save empty data for " ++ fn)) ∧
    (save_to_db db file_id fn fmt d = Except.ok db' → r ∈ db'.rows →
      r ∈ db.rows ∨ (r = ⟨file_id, fn, fmt, d⟩ ∧ r.data ≠ none ∧ dataLen r.data ≠ 0)) := by
  constructor
  · intro h
    have he : isEmptyData d = true := by
      rcases h with h | h
      · rw [h]; rfl
      · cases d with
        | none => rfl
        | some l =>
          have : l = [] := List.length_eq_zero.mp h
          rw [this]; rfl
    simp [save_to_db, he]
  · intro hok hmem
    by_cases he : isEmptyData d = true
    · simp [save_to_db, he] at hok
    · by_cases hdup : db.rows.any (fun q => q.filename == fn) = true
      · simp [save_to_db, he, hdup] at hok
      · simp only [save_to_db, he, hdup, if_false, Bool.not_eq_true] at hok
        rw [Bool.not_eq_true] at he hdup
        simp [he, hdup] at hok
        rcases hok with rfl
        rcases List.mem_append.mp hmem with hl | hr
        · exact Or.inl hl
        · have heq : r = ⟨file_id, fn, fmt, d⟩ := List.mem_singleton.mp hr
          subst heq
          refine Or.inr ⟨rfl, ?_, ?_⟩
          · intro hnone
            simp only at hnone
            rw [hnone] at he
            simp [isEmptyData] at he
          · cases d with
            | none => simp [isEmptyData] at he
            | some l =>
              simp [isEmptyData, List.isEmpty_iff] at he
              simpa [dataLen, List.length_eq_zero] using he

/-- An example table holding one valid record, one NULL record and one
zero-length record; a witness input only. -/
def exDB : DB :=
  ⟨[⟨"a", "f1.cif", "CIF", some [1]⟩,
    ⟨"b", "f2.cif", "CIF", none⟩,
    ⟨"c", "f3.cif", "CIF", some []⟩]⟩

theorem c5_save_rejects_empty_witness :
    ((none = (none : Option (List ℕ)) ∨ dataLen none = 0) →
      save_to_db exDB "d" "f4.cif" "CIF" none =
        Except.error ("Cannot save empty data for " ++ "f4.cif")) ∧
    (save_to_db exDB "d" "f4.cif" "CIF" none = Except.ok exDB →
      (⟨"a", "f1.cif", "CIF", some [1]⟩ : DBRecord) ∈ exDB.rows →
      (⟨"a", "f1.cif", "CIF", some [1]⟩ : DBRecord) ∈ exDB.rows ∨
        ((⟨"a", "f1.cif", "CIF", some [1]⟩ : DBRecord) = ⟨"d", "f4.cif", "CIF", none⟩ ∧
          (⟨"a", "f1.cif", "CIF", some [1]⟩ : DBRecord).data ≠ none ∧
          dataLen (⟨"a", "f1.cif", "CIF", some [1]⟩ : DBRecord).data ≠ 0)) :=
  c5_save_rejects_empty exDB "d" "f4.cif" "CIF" none exDB ⟨"a", "f1.cif", "CIF", some [1]⟩

/-- C7: `clear_database` empties the structures table; `clean_database` deletes
exactly the records whose payload is NULL or has zero length, and every
surviving record is kept whole (same id, filename, format, data) and in
order. -/
theorem keepPred_iff (d : Option (List ℕ)) :
    (!(d.isNone || dataLen d == 0)) = true ↔ d ≠ none ∧ dataLen d ≠ 0 := by
  cases d <;> simp [dataLen]

theorem c7_clear_clean (db : DB) (r : DBRecord) :
    (clear_database db).rows = [] ∧
    (clean_database db).rows.Sublist db.rows ∧
    (r ∈ (clean_database db).rows ↔ r ∈ db.rows ∧ r.data ≠ none ∧ dataLen r.data ≠ 0) := by
  refine ⟨rfl, List.filter_sublist _, ?_⟩
  have hmf : r ∈ (clean_database db).rows ↔
      r ∈ db.rows ∧ (!(r.data.isNone || dataLen r.data == 0)) = true := List.mem_filter
  rw [hmf, keepPred_iff]

theorem c7_clear_clean_witness :
    (clear_database exDB).rows = [] ∧
    (clean_database exDB).rows.Sublist exDB.rows ∧
    ((⟨"a", "f1.cif", "CIF", some [1]⟩ : DBRecord) ∈ (clean_database exDB).rows ↔
      (⟨"a", "f1.cif", "CIF", some [1]⟩ : DBRecord) ∈ exDB.rows ∧
        (⟨"a", "f1.cif", "CIF", some [1]⟩ : DBRecord).data ≠ none ∧
        dataLen (⟨"a", "f1.cif", "CIF", some [1]⟩ : DBRecord).data ≠ 0) :=
  c7_clear_clean exDB ⟨"a", "f1.cif", "CIF", some [1]⟩

/-! ### Ternary-coordinate claims -/

/-- C6 counterexample: `phase_composition_visualization.py` passes the raw
coordinates `xAl`, `xCo + xCr`, `xFe + xNi` to the plot with no division; at
the row whose five fractions are all one they differ from the three-way
division and do not sum to one, refuting the claim for that cited script. -/
theorem c6_raw_coords_not_divided :
    ternary_coords_raw ⟨1, 1, 1, 1, 1⟩ ≠ normalize_ternary ⟨1, 1, 1, 1, 1⟩ ∧
    (ternary_coords_raw ⟨1, 1, 1, 1, 1⟩).1 + (ternary_coords_raw ⟨1, 1, 1, 1, 1⟩).2.1 +
      (ternary_coords_raw ⟨1, 1, 1, 1, 1⟩).2.2 ≠ 1 := by
  constructor
  · intro h
    have := congrArg (fun p : ℚ × ℚ × ℚ => p.1) h
    norm_num [ternary_coords_raw, normalize_ternary] at this
  · norm_num [ternary_coords_raw]

/-- C6 (amended): the enhanced script's `normalize_ternary` divides the three
grouped fractions by the total of the five element fractions, so its
coordinates sum to one whenever that total is nonzero; the plain script passes
the raw coordinates, whose sum equals the five-fraction total (hence is one
only when the fractions already total one). -/
theorem c6_ternary_normalization (r : CompRow)
    (h : r.xAl + r.xCo + r.xCr + r.xFe + r.xNi ≠ 0) :
    (normalize_ternary r).1 + (normalize_ternary r).2.1 + (normalize_ternary r).2.2 = 1 ∧
    (ternary_coords_raw r).1 + (ternary_coords_raw r).2.1 + (ternary_coords_raw r).2.2 =
      r.xAl + r.xCo + r.xCr + r.xFe + r.xNi := by
  constructor
  · rw [normalize_ternary]
    field_simp
    ring
  · rw [ternary_coords_raw]
    ring

theorem c6_ternary_normalization_witness :
    ((normalize_ternary ⟨1, 1, 1, 1, 1⟩).1 + (normalize_ternary ⟨1, 1, 1, 1, 1⟩).2.1 +
        (normalize_ternary ⟨1, 1, 1, 1, 1⟩).2.2 = 1) ∧
    ((ternary_coords_raw ⟨1, 1, 1, 1, 1⟩).1 + (ternary_coords_raw ⟨1, 1, 1, 1, 1⟩).2.1 +
        (ternary_coords_raw ⟨1, 1, 1, 1, 1⟩).2.2 =
      (⟨1, 1, 1, 1, 1⟩ : CompRow).xAl + (⟨1, 1, 1, 1, 1⟩ : CompRow).xCo +
        (⟨1, 1, 1, 1, 1⟩ : CompRow).xCr + (⟨1, 1, 1, 1, 1⟩ : CompRow).xFe +
        (⟨1, 1, 1, 1, 1⟩ : CompRow).xNi) :=
  c6_ternary_normalization ⟨1, 1, 1, 1, 1⟩ (by norm_num)

/-! ### Substitution lemmas -/

theorem setSp_setSp (e : String) (s : Site) : setSp e (setSp e s) = setSp e s := rfl

theorem modifyAt_length (f : Site → Site) (i : ℕ) (l : List Site) :
    (modifyAt f i l).length = l.length := by
  induction l generalizing i with
  | nil => cases i <;> rfl
  | cons s t ih =>
    cases i with
    | zero => rfl
    | succ n => simpa [modifyAt] using ih n

theorem modifyAt_getElem? (f : Site → Site) (i j : ℕ) (l : List Site) :
    (modifyAt f i l)[j]? = if i = j then l[j]?.map f else l[j]? := by
  induction l generalizing i j with
  | nil => simp [modifyAt]
  | cons s t ih =>
    cases i with
    | zero =>
      cases j with
      | zero => simp [modifyAt]
      | succ mj => simp [modifyAt]
    | succ n =>
      cases j with
      | zero => simp [modifyAt]
      | succ mj => simpa [modifyAt] using ih n mj

theorem countP_modifyAt (p : Site → Bool) (f : Site → Site) (i : ℕ) (l : List Site) (s : Site)
    (hs : l[i]? = some s) :
    (modifyAt f i l).countP p + (if p s then 1 else 0) =
      l.countP p + (if p (f s) then 1 else 0) := by
  induction l generalizing i with
  | nil => simp at hs
  | cons a t ih =>
    cases i with
    | zero =>
      have ha : a = s := by simpa using hs
      subst ha
      simp only [modifyAt, List.countP_cons]
      omega
    | succ n =>
      have hs' : t[n]? = some s := by simpa using hs
      have := ih n hs'
      simp only [modifyAt, List.countP_cons]
      omega

theorem applySubs_cons (e : String) (sites : List Site) (i : ℕ) (rest : List ℕ) :
    applySubs e sites (i :: rest) = applySubs e (modifyAt (setSp e) i sites) rest := rfl

theorem applySubs_length (e : String) (sites : List Site) (idxs : List ℕ) :
    (applySubs e sites idxs).length = sites.length := by
  induction idxs generalizing sites with
  | nil => rfl
  | cons i rest ih => rw [applySubs_cons, ih, modifyAt_length]

theorem applySubs_getElem? (e : String) (sites : List Site) (idxs : List ℕ) (j : ℕ) :
    (applySubs e sites idxs)[j]? =
      if j ∈ idxs then sites[j]?.map (setSp e) else sites[j]? := by
  induction idxs generalizing sites with
  | nil => simp [applySubs]
  | cons i rest ih =>
    rw [applySubs_cons, ih]
    by_cases hij : i = j
    · subst hij
      by_cases hjr : i ∈ rest
      · simp only [hjr, if_true, modifyAt_getElem?, if_pos rfl, List.mem_cons, true_or]
        cases sites[i]? <;> rfl
      · simp [hjr, modifyAt_getElem?]
    · by_cases hjr : j ∈ rest
      · simp [hjr, modifyAt_getElem?, hij, List.mem_cons]
      · have hji : ¬ j = i := fun h => hij h.symm
        simp [hjr, modifyAt_getElem?, hij, List.mem_cons, hji]

theorem applySubs_frac (e : String) (sites : List Site) (idxs : List ℕ) (j : ℕ) :
    (applySubs e sites idxs)[j]?.map Site.frac = sites[j]?.map Site.frac := by
  rw [applySubs_getElem?]
  by_cases hj : j ∈ idxs
  · simp only [hj, if_true]
    cases sites[j]? <;> rfl
  · simp [hj]

theorem ValidSample_tail (e : String) (sites : List Site) (i : ℕ) (rest : List ℕ)
    (hv : ValidSample sites (i :: rest)) :
    ValidSample (modifyAt (setSp e) i sites) rest := by
  obtain ⟨hnd, hmem⟩ := hv
  refine ⟨hnd.of_cons, fun j hj => ?_⟩
  have hji : i ≠ j := by
    intro h
    subst h
    exact (List.nodup_cons.mp hnd).1 hj
  rw [modifyAt_getElem?, if_neg hji]
  exact hmem j (List.mem_cons_of_mem i hj)

theorem ValidSample_head (sites : List Site) (i : ℕ) (rest : List ℕ)
    (hv : ValidSample sites (i :: rest)) :
    ∃ s, sites[i]? = some s ∧ s.species = "Ni" := by
  have := hv.2 i (List.mem_cons_self i rest)
  cases h : sites[i]? with
  | none => rw [h] at this; simp at this
  | some s =>
    rw [h] at this
    exact ⟨s, rfl, by simpa using this⟩

/-- Count bookkeeping for one substitution pass: the substituted species gains
`idxs.length`, Ni loses it, every other species count is unchanged. -/
theorem countSp_applySubs (e : String) (sites : List Site) (idxs : List ℕ)
    (hv : ValidSample sites idxs) (hne : e ≠ "Ni") (f : String) :
    countSp f (applySubs e sites idxs) + (if f = "Ni" then idxs.length else 0) =
      countSp f sites + (if f = e then idxs.length else 0) := by
  induction idxs generalizing sites with
  | nil => simp [applySubs]
  | cons i rest ih =>
    obtain ⟨s, hs, hsp⟩ := ValidSample_head sites i rest hv
    have hstep := countP_modifyAt (fun q => q.species == f) (setSp e) i sites s hs
    simp only [setSp] at hstep
    simp only [hsp] at hstep
    have hrec := ih (modifyAt (setSp e) i sites) (ValidSample_tail e sites i rest hv)
    rw [applySubs_cons]
    unfold countSp at hrec ⊢
    by_cases hfni : f = "Ni"
    · subst hfni
      have hfe : ¬ (("Ni" : String) = e) := fun h => hne h.symm
      rw [if_pos rfl, if_neg hfe] at hrec ⊢
      have hbe : ((e : String) == "Ni") = false := by
        simpa using hne
      simp [hbe] at hstep
      simp only [List.length_cons]
      omega
    · by_cases hfe : f = e
      · subst hfe
        have hbs : (("Ni" : String) == f) = false := by
          simpa using fun h => hne h.symm
        simp [hbs] at hstep
        rw [if_neg hfni, if_pos rfl] at hrec ⊢
        simp only [List.length_cons]
        omega
      · have hbs : (("Ni" : String) == f) = false := by
          simpa using fun h => hfni h.symm
        have hbe : ((e : String) == f) = false := by
          simpa using fun h => hfe h.symm
        simp [hbs, hbe] at hstep
        rw [if_neg hfni, if_neg hfe] at hrec ⊢
        omega

theorem enumFrom_filter_ni_length (n : ℕ) (l : List Site) :
    ((List.enumFrom n l).filter (fun p => p.snd.species == "Ni")).length =
      l.countP (fun s => s.species == "Ni") := by
  induction l generalizing n with
  | nil => rfl
  | cons s t ih =>
    simp only [List.enumFrom_cons, List.filter_cons, List.countP_cons]
    cases h : (s.species == "Ni") <;> simp [h, ih]

/-- The Ni-site index list has as many entries as there are Ni sites. -/
theorem niIndices_length (sites : List Site) :
    (niIndices sites).length = countSp "Ni" sites := by
  unfold niIndices countSp
  rw [List.length_map, List.enum_eq_enumFrom, enumFrom_filter_ni_length]

theorem ValidSample_length_le (sites : List Site) (idxs : List ℕ)
    (hv : ValidSample sites idxs) : idxs.length ≤ countSp "Ni" sites := by
  have hc := countSp_applySubs "Fe" sites idxs hv (by decide) "Ni"
  have hni : (if ("Ni" : String) = "Ni" then idxs.length else 0) = idxs.length := if_pos rfl
  have hfe : (if ("Ni" : String) = "Fe" then idxs.length else 0) = 0 := if_neg (by decide)
  rw [hni, hfe] at hc
  omega

theorem substStep_ok (e : String) (k : ℕ) (idxs : List ℕ) (sites : List Site)
    (hk : k ≤ countSp "Ni" sites) :
    substStep e k idxs sites = Except.ok (applySubs e sites idxs) := by
  unfold substStep
  have hlt : ¬ ((niIndices sites).length < k) := by
    rw [niIndices_length]
    omega
  rw [if_neg hlt]

/-- Floor superadditivity specialised to the substitution counts: under the
input guard `3 * m + n ≤ 100` the four demanded counts fit inside `N`. -/
theorem numSub_bound (N : ℕ) (m n : ℚ) (hm : 0 ≤ m) (hn : 0 ≤ n)
    (hmn : 3 * m + n ≤ 100) : 3 * numSub N m + numSub N n ≤ N := by
  unfold numSub
  have hm0 : (0:ℤ) ≤ Int.floor ((N:ℚ) * m / 100) := Int.floor_nonneg.mpr (by positivity)
  have hn0 : (0:ℤ) ≤ Int.floor ((N:ℚ) * n / 100) := Int.floor_nonneg.mpr (by positivity)
  have hfm : ((Int.floor ((N:ℚ) * m / 100) : ℤ) : ℚ) ≤ (N:ℚ) * m / 100 :=
    Int.floor_le ((N:ℚ) * m / 100)
  have hfn : ((Int.floor ((N:ℚ) * n / 100) : ℤ) : ℚ) ≤ (N:ℚ) * n / 100 :=
    Int.floor_le ((N:ℚ) * n / 100)
  have hNn : (0:ℚ) ≤ (N:ℚ) := Nat.cast_nonneg N
  have hmul : (N:ℚ) * (3 * m + n) ≤ (N:ℚ) * 100 := mul_le_mul_of_nonneg_left hmn hNn
  have key : 3 * Int.floor ((N:ℚ) * m / 100) + Int.floor ((N:ℚ) * n / 100) ≤ (N:ℤ) := by
    have hq : ((3 * Int.floor ((N:ℚ) * m / 100) + Int.floor ((N:ℚ) * n / 100) : ℤ) : ℚ) ≤
        (N:ℚ) := by
      push_cast
      linarith
    exact_mod_cast hq
  omega

theorem countSp_applySubs_ne (e : String) (sites : List Site) (idxs : List ℕ)
    (hv : ValidSample sites idxs) (hne : e ≠ "Ni") (f : String)
    (hf1 : f ≠ "Ni") (hf2 : f ≠ e) :
    countSp f (applySubs e sites idxs) = countSp f sites := by
  have h := countSp_applySubs e sites idxs hv hne f
  rw [if_neg hf1, if_neg hf2] at h
  omega

theorem countSp_applySubs_self (e : String) (sites : List Site) (idxs : List ℕ)
    (hv : ValidSample sites idxs) (hne : e ≠ "Ni") :
    countSp e (applySubs e sites idxs) = countSp e sites + idxs.length := by
  have h := countSp_applySubs e sites idxs hv hne e
  rw [if_neg hne, if_pos rfl] at h
  omega

theorem countSp_applySubs_ni (e : String) (sites : List Site) (idxs : List ℕ)
    (hv : ValidSample sites idxs) (hne : e ≠ "Ni") :
    countSp "Ni" (applySubs e sites idxs) + idxs.length = countSp "Ni" sites := by
  have h := countSp_applySubs e sites idxs hv hne "Ni"
  rw [if_pos rfl, if_neg (fun hh => hne hh.symm)] at h
  omega

theorem countSp_all_ni (sites : List Site) (hall : ∀ s ∈ sites, s.species = "Ni") :
    countSp "Ni" sites = sites.length := by
  unfold countSp
  exact List.countP_eq_length.mpr (fun a ha => by simp [hall a ha])

theorem countSp_all_ni_other (sites : List Site) (hall : ∀ s ∈ sites, s.species = "Ni")
    (f : String) (hf : f ≠ "Ni") :
    countSp f sites = 0 := by
  unfold countSp
  refine List.countP_eq_zero.mpr (fun a ha hb => ?_)
  rw [hall a ha] at hb
  have hb' : ("Ni" : String) = f := by simpa using hb
  exact hf hb'.symm

/-- C2: with `kM = floor(N * m / 100)` and `kAl = floor(N * n / 100)`, the four
substitution passes leave counts Fe = Cr = Co = kM, Al = kAl and
Ni = N - 3 kM - kAl for every outcome of the random sampling, and neither the
atom count nor any site's fractional coordinates change; along the way every
`Insufficient Ni atoms` guard passes, so the pipeline returns the substituted
structure. -/
theorem c2_substitution_counts (m n : ℚ) (sites : List Site)
    (sFe sCr sCo sAl : List ℕ) (i : ℕ)
    (hall : ∀ s ∈ sites, s.species = "Ni")
    (hv1 : ValidSample sites sFe)
    (l1 : sFe.length = numSub sites.length m)
    (hv2 : ValidSample (applySubs "Fe" sites sFe) sCr)
    (l2 : sCr.length = numSub sites.length m)
    (hv3 : ValidSample (applySubs "Cr" (applySubs "Fe" sites sFe) sCr) sCo)
    (l3 : sCo.length = numSub sites.length m)
    (hv4 : ValidSample (applySubs "Co" (applySubs "Cr" (applySubs "Fe" sites sFe) sCr) sCo) sAl)
    (l4 : sAl.length = numSub sites.length n) :
    substitutionSteps m n sites sFe sCr sCo sAl =
      Except.ok (applySubs "Al"
        (applySubs "Co" (applySubs "Cr" (applySubs "Fe" sites sFe) sCr) sCo) sAl) ∧
    countSp "Fe" (applySubs "Al"
        (applySubs "Co" (applySubs "Cr" (applySubs "Fe" sites sFe) sCr) sCo) sAl) =
      numSub sites.length m ∧
    countSp "Cr" (applySubs "Al"
        (applySubs "Co" (applySubs "Cr" (applySubs "Fe" sites sFe) sCr) sCo) sAl) =
      numSub sites.length m ∧
    countSp "Co" (applySubs "Al"
        (applySubs "Co" (applySubs "Cr" (applySubs "Fe" sites sFe) sCr) sCo) sAl) =
      numSub sites.length m ∧
    countSp "Al" (applySubs "Al"
        (applySubs "Co" (applySubs "Cr" (applySubs "Fe" sites sFe) sCr) sCo) sAl) =
      numSub sites.length n ∧
    countSp "Ni" (applySubs "Al"
        (applySubs "Co" (applySubs "Cr" (applySubs "Fe" sites sFe) sCr) sCo) sAl) +
      3 * numSub sites.length m + numSub sites.length n = sites.length ∧
    (applySubs "Al"
        (applySubs "Co" (applySubs "Cr" (applySubs "Fe" sites sFe) sCr) sCo) sAl).length =
      sites.length ∧
    (applySubs "Al"
        (applySubs "Co" (applySubs "Cr" (applySubs "Fe" sites sFe) sCr) sCo) sAl)[i]?.map
        Site.frac =
      sites[i]?.map Site.frac := by
  have hN : countSp "Ni" sites = sites.length := countSp_all_ni sites hall
  have hFe0 : countSp "Fe" sites = 0 := countSp_all_ni_other sites hall "Fe" (by decide)
  have hCr0 : countSp "Cr" sites = 0 := countSp_all_ni_other sites hall "Cr" (by decide)
  have hCo0 : countSp "Co" sites = 0 := countSp_all_ni_other sites hall "Co" (by decide)
  have hAl0 : countSp "Al" sites = 0 := countSp_all_ni_other sites hall "Al" (by decide)
  -- step 1: Fe
  have hFe1 := countSp_applySubs_self "Fe" sites sFe hv1 (by decide)
  have hNi1 := countSp_applySubs_ni "Fe" sites sFe hv1 (by decide)
  have hCr1 := countSp_applySubs_ne "Fe" sites sFe hv1 (by decide) "Cr" (by decide) (by decide)
  have hCo1 := countSp_applySubs_ne "Fe" sites sFe hv1 (by decide) "Co" (by decide) (by decide)
  have hAl1 := countSp_applySubs_ne "Fe" sites sFe hv1 (by decide) "Al" (by decide) (by decide)
  -- step 2: Cr
  have hCr2 := countSp_applySubs_self "Cr" _ sCr hv2 (by decide)
  have hNi2 := countSp_applySubs_ni "Cr" _ sCr hv2 (by decide)
  have hFe2 := countSp_applySubs_ne "Cr" _ sCr hv2 (by decide) "Fe" (by decide) (by decide)
  have hCo2 := countSp_applySubs_ne "Cr" _ sCr hv2 (by decide) "Co" (by decide) (by decide)
  have hAl2 := countSp_applySubs_ne "Cr" _ sCr hv2 (by decide) "Al" (by decide) (by decide)
  -- step 3: Co
  have hCo3 := countSp_applySubs_self "Co" _ sCo hv3 (by decide)
  have hNi3 := countSp_applySubs_ni "Co" _ sCo hv3 (by decide)
  have hFe3 := countSp_applySubs_ne "Co" _ sCo hv3 (by decide) "Fe" (by decide) (by decide)
  have hCr3 := countSp_applySubs_ne "Co" _ sCo hv3 (by decide) "Cr" (by decide) (by decide)
  have hAl3 := countSp_applySubs_ne "Co" _ sCo hv3 (by decide) "Al" (by decide) (by decide)
  -- step 4: Al
  have hAl4 := countSp_applySubs_self "Al" _ sAl hv4 (by decide)
  have hNi4 := countSp_applySubs_ni "Al" _ sAl hv4 (by decide)
  have hFe4 := countSp_applySubs_ne "Al" _ sAl hv4 (by decide) "Fe" (by decide) (by decide)
  have hCr4 := countSp_applySubs_ne "Al" _ sAl hv4 (by decide) "Cr" (by decide) (by decide)
  have hCo4 := countSp_applySubs_ne "Al" _ sAl hv4 (by decide) "Co" (by decide) (by decide)
  have e1 : substStep "Fe" (numSub sites.length m) sFe sites =
      Except.ok (applySubs "Fe" sites sFe) := by
    refine substStep_ok _ _ _ _ ?_
    rw [← l1, hN]
    have := ValidSample_length_le sites sFe hv1
    omega
  have e2 : substStep "Cr" (numSub sites.length m) sCr (applySubs "Fe" sites sFe) =
      Except.ok (applySubs "Cr" (applySubs "Fe" sites sFe) sCr) := by
    refine substStep_ok _ _ _ _ ?_
    rw [← l2]
    exact ValidSample_length_le _ _ hv2
  have e3 : substStep "Co" (numSub sites.length m) sCo
        (applySubs "Cr" (applySubs "Fe" sites sFe) sCr) =
      Except.ok (applySubs "Co" (applySubs "Cr" (applySubs "Fe" sites sFe) sCr) sCo) := by
    refine substStep_ok _ _ _ _ ?_
    rw [← l3]
    exact ValidSample_length_le _ _ hv3
  have e4 : substStep "Al" (numSub sites.length n) sAl
        (applySubs "Co" (applySubs "Cr" (applySubs "Fe" sites sFe) sCr) sCo) =
      Except.ok (applySubs "Al"
        (applySubs "Co" (applySubs "Cr" (applySubs "Fe" sites sFe) sCr) sCo) sAl) := by
    refine substStep_ok _ _ _ _ ?_
    rw [← l4]
    exact ValidSample_length_le _ _ hv4
  refine ⟨?_, ?_, ?_, ?_, ?_, ?_, ?_, ?_⟩
  · unfold substitutionSteps
    rw [e1]
    simp only [Except.bind]
    rw [e2]
    simp only [Except.bind]
    rw [e3]
    simp only [Except.bind]
    exact e4
  · rw [hFe4, hFe3, hFe2, hFe1, hFe0, l1]
    omega
  · rw [hCr4, hCr3, hCr2, hCr1, hCr0, l2]
    omega
  · rw [hCo4, hCo3, hCo2, hCo1, hCo0, l3]
    omega
  · rw [hAl4, hAl3, hAl2, hAl1, hAl0, l4]
    omega
  · rw [l1] at hNi1
    rw [l2] at hNi2
    rw [l3] at hNi3
    rw [l4] at hNi4
    omega
  · rw [applySubs_length, applySubs_length, applySubs_length, applySubs_length]
  · rw [applySubs_frac, applySubs_frac, applySubs_frac, applySubs_frac]

/-- A four-atom all-Ni supercell; a witness input only. -/
def exSupercell : List Site :=
  [⟨"Ni", ⟨0,0,0⟩⟩, ⟨"Ni", ⟨0,0,0⟩⟩, ⟨"Ni", ⟨0,0,0⟩⟩, ⟨"Ni", ⟨0,0,0⟩⟩]

theorem numSub_four_25 : numSub 4 25 = 1 := by
  have h : ((4:ℕ):ℚ) * 25 / 100 = 1 := by norm_num
  rw [numSub, h, Int.floor_one]
  rfl

theorem c2_substitution_counts_witness :
    substitutionSteps 25 25 exSupercell [0] [1] [2] [3] =
      Except.ok (applySubs "Al"
        (applySubs "Co" (applySubs "Cr" (applySubs "Fe" exSupercell [0]) [1]) [2]) [3]) :=
  (c2_substitution_counts 25 25 exSupercell [0] [1] [2] [3] 0
    (by decide) (by decide) (by show _ = numSub 4 25; rw [numSub_four_25]; rfl)
    (by decide) (by show _ = numSub 4 25; rw [numSub_four_25]; rfl)
    (by decide) (by show _ = numSub 4 25; rw [numSub_four_25]; rfl)
    (by decide) (by show _ = numSub 4 25; rw [numSub_four_25]; rfl)).1

/-- C8: under the enforced precondition `3 * m + n ≤ 100` (with nonnegative
percentages), the `Insufficient Ni atoms` guard of each of the four
substitution steps is satisfied: enough Ni sites remain before every step,
because `3 * floor(N * m / 100) + floor(N * n / 100) ≤ N`. -/
theorem c8_guards_satisfied (m n : ℚ) (sites : List Site) (sFe sCr sCo : List ℕ)
    (hm : 0 ≤ m) (hn : 0 ≤ n) (hmn : 3 * m + n ≤ 100)
    (hall : ∀ s ∈ sites, s.species = "Ni")
    (hv1 : ValidSample sites sFe)
    (l1 : sFe.length = numSub sites.length m)
    (hv2 : ValidSample (applySubs "Fe" sites sFe) sCr)
    (l2 : sCr.length = numSub sites.length m)
    (hv3 : ValidSample (applySubs "Cr" (applySubs "Fe" sites sFe) sCr) sCo)
    (l3 : sCo.length = numSub sites.length m) :
    3 * numSub sites.length m + numSub sites.length n ≤ sites.length ∧
    numSub sites.length m ≤ (niIndices sites).length ∧
    numSub sites.length m ≤ (niIndices (applySubs "Fe" sites sFe)).length ∧
    numSub sites.length m ≤
      (niIndices (applySubs "Cr" (applySubs "Fe" sites sFe) sCr)).length ∧
    numSub sites.length n ≤
      (niIndices (applySubs "Co" (applySubs "Cr" (applySubs "Fe" sites sFe) sCr) sCo)).length := by
  have hbound := numSub_bound sites.length m n hm hn hmn
  have hN : countSp "Ni" sites = sites.length := countSp_all_ni sites hall
  have hNi1 := countSp_applySubs_ni "Fe" sites sFe hv1 (by decide)
  have hNi2 := countSp_applySubs_ni "Cr" _ sCr hv2 (by decide)
  have hNi3 := countSp_applySubs_ni "Co" _ sCo hv3 (by decide)
  rw [l1] at hNi1
  rw [l2] at hNi2
  rw [l3] at hNi3
  refine ⟨hbound, ?_, ?_, ?_, ?_⟩ <;> rw [niIndices_length] <;> omega

theorem c8_guards_satisfied_witness :
    3 * numSub exSupercell.length 25 + numSub exSupercell.length 25 ≤ exSupercell.length :=
  (c8_guards_satisfied 25 25 exSupercell [0] [1] [2]
    (by norm_num) (by norm_num) (by norm_num)
    (by decide) (by decide) (by show _ = numSub 4 25; rw [numSub_four_25]; rfl)
    (by decide) (by show _ = numSub 4 25; rw [numSub_four_25]; rfl)
    (by decide) (by show _ = numSub 4 25; rw [numSub_four_25]; rfl)).1

/-! ### Decimal rendering: unfolding and injectivity -/

theorem digitChar_toNat (d : ℕ) (hd : d < 10) : (digitChar d).toNat = 48 + d := by
  interval_cases d <;> rfl

theorem natDecimalAux_irrel (fuel1 : ℕ) :
    ∀ fuel2 n : ℕ, n < fuel1 → n < fuel2 →
      natDecimalAux fuel1 n = natDecimalAux fuel2 n := by
  induction fuel1 with
  | zero => omega
  | succ f ih =>
    intro fuel2 n h1 h2
    cases fuel2 with
    | zero => omega
    | succ f2 =>
      simp only [natDecimalAux]
      by_cases hn : n < 10
      · simp [hn]
      · simp only [hn, if_false]
        have hdiv : n / 10 < n := Nat.div_lt_self (by omega) (by decide)
        rw [ih f2 (n / 10) (by omega) (by omega)]

theorem natDecimal_eq (n : ℕ) :
    natDecimal n =
      if n < 10 then [digitChar n]
      else natDecimal (n / 10) ++ [digitChar (n % 10)] := by
  by_cases hn : n < 10
  · simp [natDecimal, natDecimalAux, hn]
  · rw [if_neg hn]
    have hdiv : n / 10 < n := Nat.div_lt_self (by omega) (by decide)
    have hstep : natDecimalAux (n + 1) n = natDecimalAux n (n / 10) ++ [digitChar (n % 10)] := by
      simp only [natDecimalAux]
      rw [if_neg hn]
    show natDecimalAux (n + 1) n = _
    rw [hstep]
    have hirr := natDecimalAux_irrel n (n / 10 + 1) (n / 10) (by omega) (by omega)
    rw [hirr]
    rfl

def decodeDecimal (cs : List Char) : ℕ :=
  cs.foldl (fun a c => a * 10 + (c.toNat - 48)) 0

theorem decode_aux (n : ℕ) : ∀ acc : ℕ,
    (natDecimal n).foldl (fun a c => a * 10 + (c.toNat - 48)) acc =
      acc * 10 ^ (natDecimal n).length + n := by
  induction n using Nat.strong_induction_on with
  | _ n ih =>
    intro acc
    rw [natDecimal_eq n]
    by_cases hn : n < 10
    · simp only [hn, if_true, List.foldl_cons, List.foldl_nil, List.length_singleton]
      rw [digitChar_toNat n hn]
      omega
    · simp only [hn, if_false, List.foldl_append, List.length_append, List.foldl_cons,
        List.foldl_nil, List.length_singleton]
      have hdiv : n / 10 < n := Nat.div_lt_self (by omega) (by decide)
      rw [ih (n / 10) hdiv acc, digitChar_toNat (n % 10) (Nat.mod_lt n (by decide)),
        pow_succ]
      have e1 : (acc * 10 ^ (natDecimal (n / 10)).length + n / 10) * 10 +
          (48 + n % 10 - 48) =
          acc * (10 ^ (natDecimal (n / 10)).length * 10) + (n / 10 * 10 + n % 10) := by
        have h48 : 48 + n % 10 - 48 = n % 10 := by omega
        rw [h48]
        ring
      rw [e1]
      have e2 : n / 10 * 10 + n % 10 = n := by omega
      rw [e2]

theorem decodeDecimal_natDecimal (n : ℕ) : decodeDecimal (natDecimal n) = n := by
  unfold decodeDecimal
  rw [decode_aux n 0]
  omega

theorem natDecimal_injective (a b : ℕ) (h : natDecimal a = natDecimal b) : a = b := by
  have hd := congrArg decodeDecimal h
  rwa [decodeDecimal_natDecimal, decodeDecimal_natDecimal] at hd

/-! ### Candidate names are pairwise distinct -/

theorem candidateName_data_zero (base ext : String) :
    (candidateName base ext 0).data = base.data ++ ('.' :: ext.data) := by
  show ((base ++ ".") ++ ext).data = base.data ++ ('.' :: ext.data)
  rw [String.data_append, String.data_append, List.append_assoc]
  rfl

theorem candidateName_data_succ (base ext : String) (k : ℕ) :
    (candidateName base ext (k + 1)).data =
      base.data ++ ('_' :: (natDecimal (k + 1) ++ ('.' :: ext.data))) := by
  show ((((base ++ "_") ++ natToString (k + 1)) ++ ".") ++ ext).data = _
  simp only [String.data_append, List.append_assoc]
  rfl

theorem candidateName_inj (base ext : String) (j k : ℕ)
    (h : candidateName base ext j = candidateName base ext k) : j = k := by
  have hdata := congrArg String.data h
  cases j with
  | zero =>
    cases k with
    | zero => rfl
    | succ k2 =>
      rw [candidateName_data_zero, candidateName_data_succ] at hdata
      have h2 := List.append_cancel_left hdata
      injection h2 with h3 _
      exact absurd h3 (by decide)
  | succ j2 =>
    cases k with
    | zero =>
      rw [candidateName_data_zero, candidateName_data_succ] at hdata
      have h2 := List.append_cancel_left hdata
      injection h2 with h3 _
      exact absurd h3 (by decide)
    | succ k2 =>
      rw [candidateName_data_succ, candidateName_data_succ] at hdata
      have h2 := List.append_cancel_left hdata
      injection h2 with _ h3
      have h4 := List.append_cancel_right h3
      rw [natDecimal_injective (j2 + 1) (k2 + 1) h4]

/-! ### The probing loop reaches a fresh name -/

theorem exists_fresh (table : List String) (base ext : String) :
    ∃ k, k ≤ table.length ∧ candidateName base ext k ∉ table := by
  by_contra hcon
  push_neg at hcon
  have hmaps : ∀ k ∈ Finset.range (table.length + 1),
      candidateName base ext k ∈ table.toFinset := by
    intro k hk
    rw [List.mem_toFinset]
    exact hcon k (by simpa [Nat.lt_succ_iff] using hk)
  have hinj : Set.InjOn (candidateName base ext) ↑(Finset.range (table.length + 1)) :=
    fun a _ b _ hab => candidateName_inj base ext a b hab
  have hcard := Finset.card_le_card (Finset.image_subset_iff.mpr hmaps)
  rw [Finset.card_image_of_injOn hinj, Finset.card_range] at hcard
  have htf := List.toFinset_card_le table
  omega

theorem gufAux_spec (table : List String) (base ext : String) :
    ∀ fuel start : ℕ,
      (∃ i, i < fuel ∧ candidateName base ext (start + i) ∉ table) →
      ∃ i, gufAux table base ext fuel start = some (candidateName base ext (start + i)) ∧
        candidateName base ext (start + i) ∉ table ∧
        ∀ j, j < i → candidateName base ext (start + j) ∈ table := by
  intro fuel
  induction fuel with
  | zero =>
    rintro start ⟨i, hi, _⟩
    omega
  | succ f ih =>
    rintro start ⟨i, hi, hfree⟩
    by_cases hmem : candidateName base ext start ∈ table
    · have hi0 : i ≠ 0 := by
        rintro rfl
        rw [Nat.add_zero] at hfree
        exact hfree hmem
      obtain ⟨i2, rfl⟩ : ∃ i2, i = i2 + 1 := ⟨i - 1, by omega⟩
      have harg : candidateName base ext (start + 1 + i2) ∉ table := by
        rwa [show start + 1 + i2 = start + (i2 + 1) from by omega]
      obtain ⟨i3, heq, hfree3, hall3⟩ := ih (start + 1) ⟨i2, by omega, harg⟩
      refine ⟨i3 + 1, ?_, ?_, ?_⟩
      · have hstep : gufAux table base ext (f + 1) start = gufAux table base ext f (start + 1) := by
          simp [gufAux, hmem]
        rw [hstep, heq, show start + 1 + i3 = start + (i3 + 1) from by omega]
      · rwa [show start + (i3 + 1) = start + 1 + i3 from by omega]
      · intro j hj
        cases j with
        | zero => simpa using hmem
        | succ j2 =>
          have hjt := hall3 j2 (by omega)
          rwa [show start + 1 + j2 = start + (j2 + 1) from by omega] at hjt
    · refine ⟨0, ?_, ?_, fun j hj => absurd hj (Nat.not_lt_zero j)⟩
      · simp [gufAux, hmem]
      · simpa using hmem

theorem get_unique_filename_spec (table : List String) (filename fmt : String) :
    ∃ k, k ≤ table.length ∧
      get_unique_filename table filename fmt =
        some (candidateName (splitextBase filename) (strLower fmt) k) ∧
      candidateName (splitextBase filename) (strLower fmt) k ∉ table ∧
      ∀ j, j < k → candidateName (splitextBase filename) (strLower fmt) j ∈ table := by
  obtain ⟨k0, hk0, hfree⟩ := exists_fresh table (splitextBase filename) (strLower fmt)
  obtain ⟨i, heq, hfree2, hall⟩ :=
    gufAux_spec table (splitextBase filename) (strLower fmt) (table.length + 1) 0
      ⟨k0, by omega, by simpa using hfree⟩
  refine ⟨i, ?_, ?_, ?_, ?_⟩
  · by_contra hgt
    push_neg at hgt
    exact hfree (by simpa using hall k0 (by omega))
  · simpa [get_unique_filename] using heq
  · simpa using hfree2
  · intro j hj
    simpa using hall j hj

/-! ### Filename claims -/

/-- C1: `get_unique_filename` returns a name absent from the table, of the form
`base.ext` or `base_k.ext` (lowercased extension), and inserting under that
name keeps the stored filenames pairwise distinct. -/
theorem c1_unique_filenames (db : DB) (fn fmt file_id : String) (d : Option (List ℕ))
    (r : String) (db' : DB)
    (h : get_unique_filename (filenames db) fn fmt = some r) :
    r ∉ filenames db ∧
    (∃ k, k ≤ (filenames db).length ∧
      r = candidateName (splitextBase fn) (strLower fmt) k) ∧
    ((filenames db).Nodup → save_to_db db file_id r fmt d = Except.ok db' →
      (filenames db').Nodup) := by
  obtain ⟨k, hk, heq, hfree, _⟩ := get_unique_filename_spec (filenames db) fn fmt
  rw [heq] at h
  have hr : r = candidateName (splitextBase fn) (strLower fmt) k := (Option.some.inj h).symm
  subst hr
  refine ⟨hfree, ⟨k, hk, rfl⟩, ?_⟩
  intro hnd hok
  by_cases he : isEmptyData d = true
  · simp [save_to_db, he] at hok
  · by_cases hdup : db.rows.any
        (fun q => q.filename == candidateName (splitextBase fn) (strLower fmt) k) = true
    · simp [save_to_db, he, hdup] at hok
    · simp [save_to_db, he, hdup] at hok
      rw [← hok]
      unfold filenames
      rw [List.map_append, List.nodup_append]
      refine ⟨hnd, List.nodup_singleton _, ?_⟩
      intro a ha hb
      have hab : a = candidateName (splitextBase fn) (strLower fmt) k := by
        simpa using hb
      rw [hab] at ha
      exact hfree ha

theorem c1_unique_filenames_witness :
    "f1_1.cif" ∉ filenames exDB ∧
    (∃ k, k ≤ (filenames exDB).length ∧
      "f1_1.cif" = candidateName (splitextBase "f1.cif") (strLower "CIF") k) ∧
    ((filenames exDB).Nodup →
      save_to_db exDB "id4" "f1_1.cif" "CIF" (some [2]) =
        Except.ok ⟨exDB.rows ++ [⟨"id4", "f1_1.cif", "CIF", some [2]⟩]⟩ →
      (filenames (⟨exDB.rows ++ [⟨"id4", "f1_1.cif", "CIF", some [2]⟩]⟩ : DB)).Nodup) :=
  c1_unique_filenames exDB "f1.cif" "CIF" "id4" (some [2]) "f1_1.cif"
    ⟨exDB.rows ++ [⟨"id4", "f1_1.cif", "CIF", some [2]⟩]⟩ (by decide)

/-- C10: the candidate names probed by `get_unique_filename` are pairwise
distinct, so the loop leaves the finite table after at most `table.length + 1`
probes and returns the first candidate, in probing order, absent from the
table. -/
theorem c10_probing_terminates (table : List String) (fn fmt : String) (j k : ℕ)
    (hjk : j ≠ k) :
    candidateName (splitextBase fn) (strLower fmt) j ≠
      candidateName (splitextBase fn) (strLower fmt) k ∧
    ∃ k0, k0 ≤ table.length ∧
      get_unique_filename table fn fmt =
        some (candidateName (splitextBase fn) (strLower fmt) k0) ∧
      candidateName (splitextBase fn) (strLower fmt) k0 ∉ table ∧
      ∀ j0, j0 < k0 → candidateName (splitextBase fn) (strLower fmt) j0 ∈ table :=
  ⟨fun h => hjk (candidateName_inj _ _ j k h), get_unique_filename_spec table fn fmt⟩

theorem c10_probing_terminates_witness :
    candidateName (splitextBase "f1.cif") (strLower "CIF") 0 ≠
      candidateName (splitextBase "f1.cif") (strLower "CIF") 1 ∧
    ∃ k0, k0 ≤ (filenames exDB).length ∧
      get_unique_filename (filenames exDB) "f1.cif" "CIF" =
        some (candidateName (splitextBase "f1.cif") (strLower "CIF") k0) ∧
      candidateName (splitextBase "f1.cif") (strLower "CIF") k0 ∉ filenames exDB ∧
      ∀ j0, j0 < k0 →
        candidateName (splitextBase "f1.cif") (strLower "CIF") j0 ∈ filenames exDB :=
  c10_probing_terminates (filenames exDB) "f1.cif" "CIF" 0 1 (by decide)

end HEA
